import Mathlib

/-!
Verification of the wmic text-table decoder (src/wmi.go).

The repository contains two near-duplicate pipelines in one package:
the key/value pipeline (`QueryWithTimeout`, emitting `/format:rawxml /VALUE`
and decoding blank-line separated `Name=Value` blocks) and the CSV pipeline
(`Query` of the second file half, emitting `/format:csv` and decoding
comma-delimited rows through encoding/csv + csvutil).

This file shallowly embeds both pipelines: strings are Lean `String`s,
line scanning, trimming and splitting are modelled over `List Char`,
reflection-driven record access is modelled by association lists of
named, kinded fields, and Go stdlib parsers (`strconv.ParseInt` etc.)
are modelled as executable partial functions returning `Option`.
-/

namespace Wmic

/-- Whitespace predicate modelling `unicode.IsSpace` restricted to the ASCII
space characters (non-ASCII Unicode spaces are not modelled). -/
def goIsSpace (c : Char) : Bool :=
  c = ' ' || c = '\t' || c = '\n' || c = '\x0B' || c = '\x0C' || c = '\r'

/-- Trim whitespace from both ends of a character list. -/
def trimChars (cs : List Char) : List Char :=
  ((cs.dropWhile goIsSpace).reverse.dropWhile goIsSpace).reverse

/-- Models Go `strings.TrimSpace`. -/
def trimSpace (s : String) : String :=
  String.mk (trimChars s.data)

/-- Build one scanned line from the reversed character accumulator,
dropping one trailing carriage return (models `dropCR` of `bufio.ScanLines`). -/
def mkLine (acc : List Char) : String :=
  match acc with
  | '\r' :: rest => String.mk rest.reverse
  | _ => String.mk acc.reverse

/-- Worker for `scanLines`: `acc` is the current line accumulated in reverse. -/
def scanLinesAux (acc : List Char) : List Char → List String
  | [] => if acc.isEmpty then [] else [mkLine acc]
  | c :: rest =>
    if c = '\n' then mkLine acc :: scanLinesAux [] rest
    else scanLinesAux (c :: acc) rest

/-- Models a `bufio.Scanner` with `bufio.ScanLines`: newline separated lines,
with one trailing `\r` stripped per line, and a final unterminated non-empty
line still emitted. -/
def scanLines (s : String) : List String :=
  scanLinesAux [] s.data

/-- Split a character list at every occurrence of `sep`
(models Go `strings.Split` for a one-character separator: keeps empty parts). -/
def splitChar (sep : Char) : List Char → List (List Char)
  | [] => [[]]
  | c :: rest =>
    if c = sep then [] :: splitChar sep rest
    else
      match splitChar sep rest with
      | [] => [[c]]
      | g :: gs => (c :: g) :: gs

/-- Split at the first `=`, models `strings.SplitN(s, "=", 2)`:
`none` when the line has no separator (Go returns a 1-element slice). -/
def splitFirstEq : List Char → Option (List Char × List Char)
  | [] => none
  | c :: rest =>
    if c = '=' then some ([], rest)
    else (splitFirstEq rest).map (fun p => (c :: p.1, p.2))

/-- Models `strings.Join(xs, ",")`. -/
def joinComma (xs : List String) : String :=
  String.intercalate "," xs

/-! ## Data model: scalar kinds, values, records -/

/-- The scalar kind of a destination struct field, as dispatched by
`set`'s `switch f.Kind()` (src/wmi.go:230-241); `other` covers the
`default` branch (unsupported reflect kinds). -/
inductive FieldKind where
  | str : FieldKind
  | intK (bits : Nat) : FieldKind
  | uintK (bits : Nat) : FieldKind
  | floatK (bits : Nat) : FieldKind
  | boolK : FieldKind
  | other (typeName : String) : FieldKind
deriving DecidableEq, Repr

/-- A scalar field value. Floats are represented by the raw accepted text:
the embedding models which strings `strconv.ParseFloat` accepts, not IEEE
rounding, which no claim depends on. -/
inductive FieldValue where
  | vStr (s : String) : FieldValue
  | vInt (n : Int) : FieldValue
  | vUint (n : Nat) : FieldValue
  | vFloat (text : String) : FieldValue
  | vBool (b : Bool) : FieldValue
deriving DecidableEq, Repr

/-- The Go zero value of each kind (`reflect.New` zero-initializes). -/
def zeroValue : FieldKind → FieldValue
  | .str => .vStr ""
  | .intK _ => .vInt 0
  | .uintK _ => .vUint 0
  | .floatK _ => .vFloat "0"
  | .boolK => .vBool false
  | .other _ => .vStr ""

/-- One declared field of the destination struct type. -/
structure StructField where
  name : String
  kind : FieldKind
deriving DecidableEq, Repr

/-- The destination struct type: its ordered, named, kinded field list. -/
def StructType := List StructField

/-- One field of a live record instance: declared name and kind plus the
current value. -/
structure RecField where
  name : String
  kind : FieldKind
  value : FieldValue
deriving DecidableEq, Repr

/-- A record instance (models one `reflect.New(innerType)` allocation). -/
abbrev Record := List RecField

/-- Models `reflect.New(innerType)`: all fields hold their zero values. -/
def newRecord (typ : StructType) : Record :=
  typ.map (fun f => ⟨f.name, f.kind, zeroValue f.kind⟩)

/-- The shape of a record: its names and kinds, forgetting values. -/
def shape (rec : Record) : StructType :=
  rec.map (fun f => ⟨f.name, f.kind⟩)

/-- Look up the current value of a named field (exact, case-sensitive match,
as `reflect.Value.FieldByName`). -/
def lookupVal (rec : Record) (field : String) : Option FieldValue :=
  (rec.find? (fun f => f.name = field)).map (fun f => f.value)

/-! ## Go stdlib parsers (strconv) -/

/-- Decimal digit accumulation. -/
def digitsToNat (cs : List Char) : Nat :=
  cs.foldl (fun a c => a * 10 + (c.toNat - '0'.toNat)) 0

/-- Non-empty all-decimal-digits check. -/
def allDigits (cs : List Char) : Bool :=
  !cs.isEmpty && cs.all (fun c => c.isDigit)

/-- Models `strconv.ParseUint(s, 10, bits)`: digits only (no sign permitted),
range-checked against the bit width. Returns `none` on syntax or range error
(Go returns a clamped value together with a non-nil error; only the error
matters to the caller). -/
def goParseUint (s : String) (bits : Nat) : Option Nat :=
  let cs := s.data
  if allDigits cs then
    let n := digitsToNat cs
    if n < 2 ^ bits then some n else none
  else none

/-- Models `strconv.ParseInt(s, 10, bits)`: optional sign, decimal digits,
range-checked against the signed bit width. -/
def goParseInt (s : String) (bits : Nat) : Option Int :=
  let signed : Bool × List Char :=
    match s.data with
    | '+' :: cs => (false, cs)
    | '-' :: cs => (true, cs)
    | cs => (false, cs)
  if allDigits signed.2 then
    let n : Int := Int.ofNat (digitsToNat signed.2)
    let v : Int := if signed.1 then -n else n
    if -(2 ^ (bits - 1) : Int) ≤ v ∧ v < (2 ^ (bits - 1) : Int) then some v
    else none
  else none

/-- Models `strconv.ParseBool`. -/
def goParseBool (s : String) : Option Bool :=
  if s = "1" ∨ s = "t" ∨ s = "T" ∨ s = "TRUE" ∨ s = "true" ∨ s = "True" then
    some true
  else if s = "0" ∨ s = "f" ∨ s = "F" ∨ s = "FALSE" ∨ s = "false" ∨ s = "False" then
    some false
  else none

/-- Mantissa syntax: decimal digits with at most one dot and at least one
digit. -/
def mantissaOK (cs : List Char) : Bool :=
  cs.all (fun c => c.isDigit || c = '.') &&
  (cs.filter (fun c => c = '.')).length ≤ 1 &&
  cs.any (fun c => c.isDigit)

/-- Exponent part syntax after the `e`/`E`: optional sign then digits. -/
def expOK (cs : List Char) : Bool :=
  match cs with
  | '+' :: rest => allDigits rest
  | '-' :: rest => allDigits rest
  | rest => allDigits rest

/-- Split at the first `e` or `E`. -/
def splitAtExp : List Char → List Char × Option (List Char)
  | [] => ([], none)
  | c :: rest =>
    if c = 'e' ∨ c = 'E' then ([], some rest)
    else
      let r := splitAtExp rest
      (c :: r.1, r.2)

/-- Models the acceptance of `strconv.ParseFloat` restricted to the decimal
grammar plus signed infinities and `nan`; hexadecimal floats, digit-group
underscores and exponent-overflow range errors are not modelled (no claim
exercises them). Returns the accepted text unchanged. -/
def goParseFloat (s : String) : Option String :=
  let signedTail : List Char :=
    match s.data with
    | '+' :: cs => cs
    | '-' :: cs => cs
    | cs => cs
  let lower := String.mk (signedTail.map Char.toLower)
  if lower = "inf" ∨ lower = "infinity" then some s
  else if String.mk (s.data.map Char.toLower) = "nan" then some s
  else
    let m := splitAtExp signedTail
    if mantissaOK m.1 then
      match m.2 with
      | none => some s
      | some e => if expOK e then some s else none
    else none

/-- Scalar coercion of one raw string, dispatching on the declared kind:
models `setString` / `setIntN` / `setUintN` / `setFloatN` / `setBool`
(src/wmi.go:245-284). The `other` kind is handled by `setField` before
coercion is consulted. -/
def coerce : FieldKind → String → Option FieldValue
  | .str, s => some (.vStr s)
  | .intK b, s => (goParseInt s b).map (fun n => .vInt n)
  | .uintK b, s => (goParseUint s b).map (fun n => .vUint n)
  | .floatK _, s => (goParseFloat s).map (fun t => .vFloat t)
  | .boolK, s => (goParseBool s).map (fun b => .vBool b)
  | .other _, _ => none

/-! ## The field mapper `set` (src/wmi.go:221-243) -/

/-- Errors returned by `set`: `fieldError` models `*FieldError` (unknown
field name), `unsupportedType` models `*UnsupportedTypeError`, `valueError`
models the plain `fmt.Errorf` coercion failures that allow continuation. -/
inductive SetError where
  | fieldError (field : String) : SetError
  | unsupportedType (field typeName : String) : SetError
  | valueError (msg : String) : SetError
deriving DecidableEq, Repr

/-- The type-switch at src/wmi.go:187-191: only `*FieldError` and
`*UnsupportedTypeError` abort the decode. -/
def SetError.isFatal : SetError → Bool
  | .fieldError _ => true
  | .unsupportedType _ _ => true
  | .valueError _ => false

/-- The `Error()` texts of the three error shapes. The `valueError` text
approximates the source's `fmt.Errorf("Unable to set field %s type %s",
v.Type().Name, s)` (whose first verb formats an uncalled method value —
a cosmetic slip in the source that no claim depends on). -/
def SetError.message : SetError → String
  | .fieldError f => "Cannot find field " ++ f ++ ", names are case-sensitive"
  | .unsupportedType f t => "Field " ++ f ++ " has an unsupported type " ++ t
  | .valueError m => m

/-- The coercion-failure message used for a raw value `s`. -/
def coerceMsg (s : String) : String :=
  "Unable to set field type " ++ s

/-- Models `set(field, s, item)` (src/wmi.go:221-243): looks the field up by
exact name, fails fatally when absent or of unsupported kind, otherwise
coerces and stores; on any error the record is unchanged (reflect only
mutates on the success paths). -/
def setField : Record → String → String → Record × Option SetError
  | [], field, _ => ([], some (.fieldError field))
  | f :: rest, field, sVal =>
    if f.name = field then
      match f.kind with
      | .other tn => (f :: rest, some (.unsupportedType field tn))
      | k =>
        match coerce k sVal with
        | some v => (⟨f.name, f.kind, v⟩ :: rest, none)
        | none => (f :: rest, some (.valueError (coerceMsg sVal)))
    else
      let r := setField rest field sVal
      (f :: r.1, r.2)

/-! ## Query request builders -/

/-- Models `strings.HasPrefix(s, "(")`. -/
def startsLParen (s : String) : Bool :=
  match s.data with
  | '(' :: _ => true
  | _ => false

/-- Models `strings.HasSuffix(s, ")")`. -/
def endsRParen (s : String) : Bool :=
  match s.data.getLast? with
  | some ')' => true
  | _ => false

/-- The space-split tokens of the trimmed where clause,
models `strings.Split(strings.TrimSpace(where), " ")`. -/
def whereParts (w : String) : List String :=
  (splitChar ' ' (trimSpace w).data).map String.mk

/-- The `WHERE` section shared verbatim by both query builders
(src/wmi.go:107-117 and 321-331): appends `WHERE`, an opening parenthesis
token when the first part does not start with `(`, the parts, and a closing
parenthesis token when the last part does not end with `)`. -/
def buildWhere (q : List String) (w : String) : List String :=
  if w = "" then q
  else
    let parts := whereParts w
    let q := q ++ ["WHERE"]
    let q := if startsLParen parts.head! then q else q ++ ["("]
    let q := q ++ parts
    if endsRParen parts.getLast! then q else q ++ [")"]

/-- The schema-derived comma-joined field-name list (src/wmi.go:126-133).
The `fieldCache` memoization is not modelled: it stores exactly this pure
value keyed by the type name, so the appended token is identical on the
cached and uncached paths. -/
def colString (typ : StructType) : String :=
  joinComma (typ.map (fun f => f.name))

/-- Argument list built by `QueryWithTimeout` (src/wmi.go:106-139). -/
def queryWithTimeoutArgs (cls : String) (columns : List String) (w : String)
    (typ : StructType) : List String :=
  let q := buildWhere ["PATH", cls] w
  let q := q ++ ["GET"]
  let q := if columns.isEmpty then q ++ [colString typ] else q ++ [joinComma columns]
  q ++ ["/format:rawxml", "/VALUE"]

/-- Argument list effectively built by the key/value-pipeline `Query`
(src/wmi.go:75-77): it forwards `[]string{}` in place of its `columns`
parameter to `QueryWithTimeout`. -/
def queryArgs (cls : String) (_columns : List String) (w : String)
    (typ : StructType) : List String :=
  queryWithTimeoutArgs cls [] w typ

/-- Argument list built by the CSV-pipeline `Query` (src/wmi.go:320-336):
explicit columns are appended only when non-empty, and no schema list is
emitted otherwise. -/
def csvQueryArgs (cls : String) (columns : List String) (w : String) : List String :=
  let q := buildWhere ["PATH", cls] w
  let q := q ++ ["GET"]
  let q := if columns.isEmpty then q else q ++ [joinComma columns]
  q ++ ["/format:csv"]

/-! ## Key/value pipeline: the decode loop of `QueryWithTimeout`
(src/wmi.go:161-218) -/

/-- Models the `RecordError` struct (src/wmi.go:21-26). -/
structure RecordError where
  Class : String
  Field : String
  Line : Nat
  Message : String
deriving DecidableEq, Repr

/-- Classification of one scanned line after `strings.TrimSpace`:
blank, a `name=value` line with a non-empty trimmed value, or any other
non-blank line (no `=` separator, or empty value after trimming), which
assigns nothing but still counts as row content. -/
inductive LineClass where
  | blank : LineClass
  | junk : LineClass
  | pair (name val : String) : LineClass
deriving DecidableEq, Repr

/-- Classify a raw scanned line exactly as the loop body at
src/wmi.go:170-184 discriminates it: trim, test for blank, split at the
first `=` (`SplitN(s, "=", 2)`), trim the value, test it for empty. -/
def classifyLine (raw : String) : LineClass :=
  let s := trimSpace raw
  if s = "" then .blank
  else
    match splitFirstEq s.data with
    | none => .junk
    | some p =>
      let val := trimSpace (String.mk p.2)
      if val = "" then .junk else .pair (String.mk p.1) val

/-- State of the key/value decode loop: accumulated emitted records, the
record under construction, the `contentStarted` flag, the diagnostic `line`
counter, the accumulated recoverable `recordErrors`, and — modelling the
early `return` at src/wmi.go:188-190 — the fatal error once one occurred. -/
structure KVState where
  result : List Record
  item : Record
  contentStarted : Bool
  line : Nat
  errs : List RecordError
  fatal : Option SetError

/-- One iteration of the scan loop (src/wmi.go:169-198). After a fatal
error the source has returned, modelled by freezing the state. A blank
line while content is started emits the buffered record, increments the
line counter and resets; any non-blank line marks content started; a
`name=value` line with non-empty value is applied via `setField`, where
a fatal error aborts and a value error appends one `RecordError`. -/
def processLine (cls : String) (typ : StructType) (st : KVState) (raw : String) :
    KVState :=
  if st.fatal.isSome then st
  else
    match classifyLine raw with
    | .blank =>
      if st.contentStarted then
        ⟨st.result ++ [st.item], newRecord typ, false, st.line + 1, st.errs, none⟩
      else st
    | .junk => { st with contentStarted := true }
    | .pair name val =>
      let r := setField st.item name val
      match r.2 with
      | none => { st with contentStarted := true, item := r.1 }
      | some e =>
        if e.isFatal then { st with contentStarted := true, fatal := some e }
        else
          { st with contentStarted := true,
                    errs := st.errs ++ [⟨cls, name, st.line, e.message⟩] }

/-- Initial loop state (src/wmi.go:161-168). -/
def initKV (typ : StructType) : KVState :=
  ⟨[], newRecord typ, false, 1, [], none⟩

/-- The epilogue at src/wmi.go:200-218: on a fatal error the function has
returned early with the collected errors and the caller's slice untouched;
otherwise the trailing unterminated record is emitted and the decoded
records replace the caller's slice. -/
def kvFinish (st : KVState) (out0 : List Record) :
    List RecordError × Option SetError × List Record :=
  match st.fatal with
  | some e => (st.errs, some e, out0)
  | none =>
    (st.errs, none, st.result ++ (if st.contentStarted then [st.item] else []))

/-- The decode phase of `QueryWithTimeout` applied to the raw stdout text
(src/wmi.go:161-218): runs the scan loop over the scanned lines, then the
epilogue. -/
def decodeKV (cls : String) (typ : StructType) (text : String)
    (out0 : List Record) : List RecordError × Option SetError × List Record :=
  kvFinish ((scanLines text).foldl (processLine cls typ) (initKV typ)) out0

/-! ## Specification-side row framer and decoder for the key/value format

These definitions follow the spec's decomposition (§4.2 Row Framer and
§4.5 Record Decoder): the framer turns the text into rows of
(name, raw value) pairs, the decoder walks the framed rows. The claims of
row order, error attribution and abort behavior are proved by relating
`decodeKV` to this compositional pipeline. -/

/-- A framed raw row: ordered (field-name, raw-string) pairs. -/
abbrev KVRow := List (String × String)

/-- Framer state: emitted rows, the row being collected, and whether the
current block has started. -/
structure FrameState where
  rows : List KVRow
  cur : KVRow
  started : Bool

/-- One framer step over a scanned line: mirrors the row-framing effect of
`processLine` while collecting pairs instead of decoding them. -/
def frameLine (st : FrameState) (raw : String) : FrameState :=
  match classifyLine raw with
  | .blank => if st.started then ⟨st.rows ++ [st.cur], [], false⟩ else st
  | .junk => { st with started := true }
  | .pair name val => ⟨st.rows, st.cur ++ [(name, val)], true⟩

/-- Emit the trailing in-progress row, if any. -/
def frameFinish (st : FrameState) : List KVRow :=
  st.rows ++ (if st.started then [st.cur] else [])

/-- The key/value row framer: blank-line separated blocks of `name=value`
lines, with an unterminated trailing block still emitted. -/
def frameKV (text : String) : List KVRow :=
  frameFinish ((scanLines text).foldl frameLine ⟨[], [], false⟩)

/-- Accumulator for decoding the pairs of one framed row. -/
structure PairAcc where
  record : Record
  errs : List RecordError
  fatal : Option SetError

/-- Decode one framed (name, value) pair at diagnostic line `ln`:
no-op once fatal; otherwise apply `setField`, recording a `RecordError`
on a recoverable failure and the fatal error on a fatal one. -/
def pairStep (cls : String) (ln : Nat) (acc : PairAcc) (p : String × String) :
    PairAcc :=
  match acc.fatal with
  | some _ => acc
  | none =>
    let r := setField acc.record p.1 p.2
    match r.2 with
    | none => ⟨r.1, acc.errs, none⟩
    | some e =>
      if e.isFatal then ⟨acc.record, acc.errs, some e⟩
      else ⟨acc.record, acc.errs ++ [⟨cls, p.1, ln, e.message⟩], none⟩

/-- Decode all pairs of one framed row into a fresh record. -/
def runRow (cls : String) (typ : StructType) (ln : Nat)
    (errs : List RecordError) (row : KVRow) : PairAcc :=
  row.foldl (pairStep cls ln) ⟨newRecord typ, errs, none⟩

/-- Result of decoding a list of framed rows. -/
structure RunResult where
  recs : List Record
  errs : List RecordError
  line : Nat
  fatal : Option SetError

/-- Decode framed rows in order, numbering them from `ln`, stopping at the
first fatal error. -/
def runRows (cls : String) (typ : StructType) :
    List KVRow → Nat → List Record → List RecordError → RunResult
  | [], ln, recs, errs => ⟨recs, errs, ln, none⟩
  | row :: rest, ln, recs, errs =>
    let c := runRow cls typ ln errs row
    match c.fatal with
    | some e => ⟨recs, c.errs, ln, some e⟩
    | none => runRows cls typ rest (ln + 1) (recs ++ [c.record]) c.errs

/-- The compositional key/value decoder over framed rows: on a fatal error
the caller's slice `out0` is returned untouched together with the errors
collected so far; otherwise the decoded records replace it. -/
def decodeKVSpec (cls : String) (typ : StructType) (rows : List KVRow)
    (out0 : List Record) : List RecordError × Option SetError × List Record :=
  let r := runRows cls typ rows 1 [] []
  match r.fatal with
  | some e => (r.errs, some e, out0)
  | none => (r.errs, none, r.recs)

/-- Pure decoding of one framed row, ignoring error bookkeeping: apply
each pair's `setField` in order (failed pairs leave the record unchanged). -/
def applyRowFold (rec : Record) (row : KVRow) : Record :=
  row.foldl (fun r p => (setField r p.1 p.2).1) rec

/-- The record decoded from one framed row of a given struct type. -/
def applyRowPure (typ : StructType) (row : KVRow) : Record :=
  applyRowFold (newRecord typ) row

/-! ## CSV pipeline: the decode path of the second `Query`
(src/wmi.go:319-428) -/

/-- Models `strings.ReplaceAll(s, "\x7b", "")` with the quote character:
every `"` anywhere in the line is removed. -/
def removeQuotes (s : String) : String :=
  String.mk (s.data.filter (fun c => c ≠ '"'))

/-- The preprocessing loop at src/wmi.go:349-357: scan lines, drop blank
lines, remove all quote characters from each kept line, and rejoin with a
trailing newline per line. -/
def csvPreprocess (text : String) : String :=
  (scanLines text).foldl
    (fun acc l => if trimSpace l = "" then acc else acc ++ removeQuotes l ++ "\n")
    ""

/-- Field splitting of one preprocessed CSV line. After `csvPreprocess`
the text contains no quote character, so `encoding/csv` with
`LazyQuotes = true` reduces to splitting on commas; `TrimLeadingSpace =
true` drops leading white space of every field. -/
def parseCSVLine (s : String) : List String :=
  (splitChar ',' s.data).map (fun cs => String.mk (cs.dropWhile goIsSpace))

/-- Errors of the CSV decode path. `eof` models `csvutil.NewDecoder`
returning `io.EOF` on empty input (src/wmi.go:388-391); the row-shape
`csv.ParseError` is not represented here because the loop at
src/wmi.go:400-406 swallows it; `typeError` models a `csvutil`
unmarshal failure of one cell, `unsupportedType` a field kind `csvutil`
cannot decode — both hit the `return err` at src/wmi.go:407-410. -/
inductive CSVError where
  | eof : CSVError
  | typeError (field value : String) : CSVError
  | unsupportedType (field : String) : CSVError
deriving DecidableEq, Repr

/-- Decode one CSV cell into the record under its header name. Modelled
from csvutil's documented default behavior: header columns without a
matching struct field are ignored, an empty cell leaves the zero value,
and a cell that fails scalar coercion is a decode error. -/
def csvSetCell (rec : Record) (h v : String) : Except CSVError Record :=
  if v = "" then .ok rec
  else
    let r := setField rec h v
    match r.2 with
    | none => .ok r.1
    | some (.fieldError _) => .ok rec
    | some (.unsupportedType f _) => .error (.unsupportedType f)
    | some (.valueError _) => .error (.typeError h v)

/-- Decode the cells of one well-formed CSV data row into a fresh record. -/
def decodeCSVRow (typ : StructType) (hdr fields : List String) :
    Except CSVError Record :=
  (hdr.zip fields).foldlM (fun rec p => csvSetCell rec p.1 p.2) (newRecord typ)

/-- The decode loop at src/wmi.go:395-412: a data row whose field count
differs from the header's yields a `csv.ParseError`, which is skipped; a
cell-level decode failure is returned as-is, aborting with no records; all
surviving rows are decoded in order. -/
def decodeCSVRows (typ : StructType) (hdr : List String) :
    List (List String) → Except CSVError (List Record)
  | [] => .ok []
  | r :: rs =>
    if r.length == hdr.length then
      match decodeCSVRow typ hdr r with
      | .error e => .error e
      | .ok rec =>
        match decodeCSVRows typ hdr rs with
        | .error e => .error e
        | .ok recs => .ok (rec :: recs)
    else decodeCSVRows typ hdr rs

/-- The CSV decode pipeline of `Query` applied to the raw stdout text:
preprocess, scan, take the first line as the header, decode the rest. -/
def decodeCSV (typ : StructType) (text : String) : Except CSVError (List Record) :=
  match scanLines (csvPreprocess text) with
  | [] => .error .eof
  | h :: rs => decodeCSVRows typ (parseCSVLine h) (rs.map parseCSVLine)

/-- Specification-side `mapM` for `Except`: decode each element in order,
stopping at the first error. -/
def mapExcept (f : α → Except ε β) : List α → Except ε (List β)
  | [] => .ok []
  | a :: as_ =>
    match f a with
    | .error e => .error e
    | .ok b =>
      match mapExcept f as_ with
      | .error e => .error e
      | .ok bs => .ok (b :: bs)

/-! ## Specification-side error and outcome classification (key/value) -/

/-- The outcome class of decoding one framed pair against a struct type:
`fatal` for an unknown field name or an unsupported kind, `recov` for a
scalar coercion failure, `ok` otherwise. -/
inductive PairOutcome where
  | ok : PairOutcome
  | recov : PairOutcome
  | fatal : PairOutcome
deriving DecidableEq, Repr

/-- Classify one framed pair against the struct type. -/
def pairOutcome (typ : StructType) (p : String × String) : PairOutcome :=
  match typ.find? (fun f => f.name = p.1) with
  | none => .fatal
  | some f =>
    match f.kind with
    | .other _ => .fatal
    | k => if (coerce k p.2).isSome then .ok else .recov

/-- The recoverable errors of one framed row at line `ln`, in pair order,
stopping at the first fatal pair; the flag reports whether a fatal pair
was hit. -/
def rowPreErrs (cls : String) (typ : StructType) (ln : Nat) :
    KVRow → List RecordError × Bool
  | [] => ([], false)
  | p :: rest =>
    match pairOutcome typ p with
    | .fatal => ([], true)
    | .ok => rowPreErrs cls typ ln rest
    | .recov =>
      let r := rowPreErrs cls typ ln rest
      (⟨cls, p.1, ln, coerceMsg p.2⟩ :: r.1, r.2)

/-- The recoverable errors of framed rows numbered from `ln`, in row-major
order, stopping at the first fatal pair. -/
def preFatalErrs (cls : String) (typ : StructType) : Nat → List KVRow → List RecordError
  | _, [] => []
  | ln, row :: rest =>
    let r := rowPreErrs cls typ ln row
    if r.2 then r.1 else r.1 ++ preFatalErrs cls typ (ln + 1) rest

/-- All field kinds of the struct type have a supported coercion. -/
def kindsOK (typ : StructType) : Bool :=
  typ.all (fun f =>
    match f.kind with
    | .other _ => false
    | _ => true)

/-- The declared kind of a named field of the struct type. -/
def lookupKind (typ : StructType) (field : String) : Option FieldKind :=
  (typ.find? (fun f => f.name = field)).map (fun f => f.kind)

/-! ## The simulation invariant between the decode loop and the framer -/

/-- Spec-side result of decoding the rows the framer has completed. -/
def rowsRes (cls : String) (typ : StructType) (fst : FrameState) : RunResult :=
  runRows cls typ fst.rows 1 [] []

/-- Spec-side accumulator over the framer's in-progress row. -/
def curAcc (cls : String) (typ : StructType) (fst : FrameState) : PairAcc :=
  runRow cls typ (rowsRes cls typ fst).line (rowsRes cls typ fst).errs fst.cur

/-- The simulation invariant: the decode-loop state is determined by the
framer state. Either a fatal error already occurred in a completed row, or
in the in-progress row, or the loop is live and all its components agree
with the spec-side decoders applied to the framed rows so far. -/
def Inv (cls : String) (typ : StructType) (st : KVState) (fst : FrameState) : Prop :=
  (fst.started = false → fst.cur = []) ∧
  ((∃ e, (rowsRes cls typ fst).fatal = some e ∧ st.fatal = some e ∧
      st.errs = (rowsRes cls typ fst).errs) ∨
   ((rowsRes cls typ fst).fatal = none ∧
    ∃ e, (curAcc cls typ fst).fatal = some e ∧ st.fatal = some e ∧
      st.errs = (curAcc cls typ fst).errs) ∨
   ((rowsRes cls typ fst).fatal = none ∧ (curAcc cls typ fst).fatal = none ∧
    st.fatal = none ∧ st.result = (rowsRes cls typ fst).recs ∧
    st.errs = (curAcc cls typ fst).errs ∧ st.item = (curAcc cls typ fst).record ∧
    st.contentStarted = fst.started ∧ st.line = (rowsRes cls typ fst).line))

/-! ## Demonstration struct type and example data (spec §8 examples) -/

/-- The two-field demonstration struct of the spec's examples:
`struct { Name string; Age int }`. -/
def demoT : StructType := [⟨"Name", .str⟩, ⟨"Age", .intK 64⟩]

/-- The spec's key/value end-to-end example input (no trailing blank line). -/
def aliceBobText : String := "Name=Alice\nAge=30\n\nName=Bob\nAge=not-a-number"

def aliceRec : Record := [⟨"Name", .str, .vStr "Alice"⟩, ⟨"Age", .intK 64, .vInt 30⟩]

def bobRec : Record := [⟨"Name", .str, .vStr "Bob"⟩, ⟨"Age", .intK 64, .vInt 0⟩]

def carolRec : Record := [⟨"Name", .str, .vStr "Carol"⟩, ⟨"Age", .intK 64, .vInt 41⟩]

def daveRec : Record := [⟨"Name", .str, .vStr "Dave"⟩, ⟨"Age", .intK 64, .vInt 7⟩]

/-- Key/value example containing a field name absent from `demoT`. -/
def nopeText : String := "Name=A\n\nName=B\n\nNope=1"

/-- Key/value example with a recoverable error before a fatal one. -/
def mixedText : String := "Age=x\nNope=1"

/-- Claim-side line cleaning: strip only one leading and one trailing quote
character, leaving interior quotes in place. This follows the claim's (and
spec §6's) description, to be compared with the source's `removeQuotes`. -/
def stripOuterQuotes (s : String) : String :=
  let cs := s.data
  let cs := if cs.head? = some '"' then cs.tail else cs
  let cs := if cs.getLast? = some '"' then cs.dropLast else cs
  String.mk cs

/-- Claim-side CSV preprocessing: like `csvPreprocess` but stripping only
the leading/trailing quote characters of each kept line, as the claim
describes. -/
def csvPreprocessClaim (text : String) : String :=
  (scanLines text).foldl
    (fun acc l => if trimSpace l = "" then acc else acc ++ stripOuterQuotes l ++ "\n")
    ""

/-! ## Basic lemmas about `setField` -/

theorem setField_err_unchanged (rec : Record) (f v : String)
    (h : (setField rec f v).2.isSome) : (setField rec f v).1 = rec := by
  induction rec with
  | nil => simp [setField]
  | cons a rest ih =>
    by_cases hn : a.name = f
    · cases hk : a.kind with
      | other tn => simp [setField, hn, hk]
      | str =>
        cases hc : coerce .str v with
        | some w => simp [setField, hn, hk, hc] at h
        | none => simp [setField, hn, hk, hc]
      | intK b =>
        cases hc : coerce (.intK b) v with
        | some w => simp [setField, hn, hk, hc] at h
        | none => simp [setField, hn, hk, hc]
      | uintK b =>
        cases hc : coerce (.uintK b) v with
        | some w => simp [setField, hn, hk, hc] at h
        | none => simp [setField, hn, hk, hc]
      | floatK b =>
        cases hc : coerce (.floatK b) v with
        | some w => simp [setField, hn, hk, hc] at h
        | none => simp [setField, hn, hk, hc]
      | boolK =>
        cases hc : coerce .boolK v with
        | some w => simp [setField, hn, hk, hc] at h
        | none => simp [setField, hn, hk, hc]
    · simp only [setField, if_neg hn] at h ⊢
      simp [ih h]

theorem setField_shape (rec : Record) (f v : String) :
    shape (setField rec f v).1 = shape rec := by
  induction rec with
  | nil => simp [setField]
  | cons a rest ih =>
    by_cases hn : a.name = f
    · cases hk : a.kind with
      | other tn => simp [setField, hn, hk]
      | str =>
        cases hc : coerce .str v with
        | some w => simp [setField, hn, hk, hc, shape]
        | none => simp [setField, hn, hk, hc]
      | intK b =>
        cases hc : coerce (.intK b) v with
        | some w => simp [setField, hn, hk, hc, shape]
        | none => simp [setField, hn, hk, hc]
      | uintK b =>
        cases hc : coerce (.uintK b) v with
        | some w => simp [setField, hn, hk, hc, shape]
        | none => simp [setField, hn, hk, hc]
      | floatK b =>
        cases hc : coerce (.floatK b) v with
        | some w => simp [setField, hn, hk, hc, shape]
        | none => simp [setField, hn, hk, hc]
      | boolK =>
        cases hc : coerce .boolK v with
        | some w => simp [setField, hn, hk, hc, shape]
        | none => simp [setField, hn, hk, hc]
    · simp only [setField, if_neg hn]
      simp only [shape] at ih ⊢
      simp [ih]

/-- Full characterization of `setField`'s error against the pair's outcome
class over the record's shape. -/
theorem setField_pairOutcome (rec : Record) (f v : String) :
    ((setField rec f v).2 = none ↔ pairOutcome (shape rec) (f, v) = .ok) ∧
    ((setField rec f v).2 = some (.valueError (coerceMsg v)) ↔
      pairOutcome (shape rec) (f, v) = .recov) ∧
    ((∃ e, (setField rec f v).2 = some e ∧ e.isFatal = true) ↔
      pairOutcome (shape rec) (f, v) = .fatal) := by
  induction rec with
  | nil => simp [setField, pairOutcome, shape, SetError.isFatal]
  | cons a rest ih =>
    by_cases hn : a.name = f
    · cases hk : a.kind with
      | other tn => simp [setField, pairOutcome, shape, hn, hk, SetError.isFatal]
      | str =>
        cases hc : coerce .str v <;>
          simp [setField, pairOutcome, shape, hn, hk, hc, SetError.isFatal]
      | intK b =>
        cases hc : coerce (.intK b) v <;>
          simp [setField, pairOutcome, shape, hn, hk, hc, SetError.isFatal]
      | uintK b =>
        cases hc : coerce (.uintK b) v <;>
          simp [setField, pairOutcome, shape, hn, hk, hc, SetError.isFatal]
      | floatK b =>
        cases hc : coerce (.floatK b) v <;>
          simp [setField, pairOutcome, shape, hn, hk, hc, SetError.isFatal]
      | boolK =>
        cases hc : coerce .boolK v <;>
          simp [setField, pairOutcome, shape, hn, hk, hc, SetError.isFatal]
    · have hout : pairOutcome (shape (a :: rest)) (f, v) =
          pairOutcome (shape rest) (f, v) := by
        simp [pairOutcome, shape, List.find?_cons, hn]
      simp only [setField, if_neg hn, hout]
      exact ih

/-- A fatal `setField` error on a record whose kinds are all supported is
an unknown-field error. -/
theorem setField_fatal_fieldError (rec : Record) (f v : String) (e : SetError)
    (hk : kindsOK (shape rec) = true)
    (h : (setField rec f v).2 = some e) (hf : e.isFatal = true) :
    ∃ g, e = .fieldError g := by
  induction rec with
  | nil =>
    simp [setField] at h
    exact ⟨f, h.symm⟩
  | cons a rest ih =>
    by_cases hn : a.name = f
    · cases hkk : a.kind with
      | other tn =>
        simp [kindsOK, shape, hkk] at hk
      | str =>
        cases hc : coerce .str v with
        | some w => simp [setField, hn, hkk, hc] at h
        | none =>
          simp [setField, hn, hkk, hc] at h
          subst h
          simp [SetError.isFatal] at hf
      | intK b =>
        cases hc : coerce (.intK b) v with
        | some w => simp [setField, hn, hkk, hc] at h
        | none =>
          simp [setField, hn, hkk, hc] at h
          subst h
          simp [SetError.isFatal] at hf
      | uintK b =>
        cases hc : coerce (.uintK b) v with
        | some w => simp [setField, hn, hkk, hc] at h
        | none =>
          simp [setField, hn, hkk, hc] at h
          subst h
          simp [SetError.isFatal] at hf
      | floatK b =>
        cases hc : coerce (.floatK b) v with
        | some w => simp [setField, hn, hkk, hc] at h
        | none =>
          simp [setField, hn, hkk, hc] at h
          subst h
          simp [SetError.isFatal] at hf
      | boolK =>
        cases hc : coerce .boolK v with
        | some w => simp [setField, hn, hkk, hc] at h
        | none =>
          simp [setField, hn, hkk, hc] at h
          subst h
          simp [SetError.isFatal] at hf
    · have hk' : kindsOK (shape rest) = true := by
        simp [kindsOK, shape] at hk ⊢
        exact fun x hx => hk.2 x hx
      simp only [setField, if_neg hn] at h
      exact ih hk' h

/-- Setting one named field leaves the looked-up value of any other name
unchanged. -/
theorem setField_lookup_ne (rec : Record) (f v g : String) (hne : f ≠ g) :
    lookupVal (setField rec f v).1 g = lookupVal rec g := by
  induction rec with
  | nil => simp [setField]
  | cons a rest ih =>
    by_cases hn : a.name = f
    · have hag : ¬a.name = g := by rw [hn]; exact hne
      cases hk : a.kind with
      | other tn => simp [setField, hn, hk]
      | str =>
        cases hc : coerce .str v <;>
          simp [setField, lookupVal, List.find?_cons, hn, hk, hc, hag, hne]
      | intK b =>
        cases hc : coerce (.intK b) v <;>
          simp [setField, lookupVal, List.find?_cons, hn, hk, hc, hag, hne]
      | uintK b =>
        cases hc : coerce (.uintK b) v <;>
          simp [setField, lookupVal, List.find?_cons, hn, hk, hc, hag, hne]
      | floatK b =>
        cases hc : coerce (.floatK b) v <;>
          simp [setField, lookupVal, List.find?_cons, hn, hk, hc, hag, hne]
      | boolK =>
        cases hc : coerce .boolK v <;>
          simp [setField, lookupVal, List.find?_cons, hn, hk, hc, hag, hne]
    · by_cases hag : a.name = g
      · have hgf : ¬g = f := fun h => hne h.symm
        simp [setField, lookupVal, List.find?_cons, hn, hag, hgf]
      · simp only [setField, if_neg hn]
        simp [lookupVal, List.find?_cons, hag] at ih ⊢
        exact ih

/-- The shape of a fresh record is the struct type itself. -/
theorem shape_newRecord (typ : StructType) : shape (newRecord typ) = typ := by
  induction typ with
  | nil => simp [shape, newRecord]
  | cons a rest ih =>
    simp only [shape, newRecord, List.map_cons] at ih ⊢
    simp [ih]

/-! ## Lemmas about the pair/row/rows spec decoders -/

theorem pairStep_frozen (cls : String) (ln : Nat) (acc : PairAcc)
    (p : String × String) (e : SetError) (h : acc.fatal = some e) :
    pairStep cls ln acc p = acc := by
  cases acc
  simp only at h
  simp [pairStep, h]

theorem foldl_pairStep_frozen (cls : String) (ln : Nat) (row : KVRow)
    (acc : PairAcc) (e : SetError) (h : acc.fatal = some e) :
    row.foldl (pairStep cls ln) acc = acc := by
  induction row with
  | nil => rfl
  | cons p rest ih =>
    simp only [List.foldl_cons, pairStep_frozen cls ln acc p e h]
    exact ih

theorem runRows_snoc_fatal (cls : String) (typ : StructType) (rows : List KVRow)
    (row : KVRow) (ln : Nat) (recs : List Record) (errs : List RecordError)
    (e : SetError) (h : (runRows cls typ rows ln recs errs).fatal = some e) :
    runRows cls typ (rows ++ [row]) ln recs errs =
      runRows cls typ rows ln recs errs := by
  induction rows generalizing ln recs errs with
  | nil => simp [runRows] at h
  | cons r0 rest ih =>
    simp only [List.cons_append, runRows]
    simp only [runRows] at h
    cases hc : (runRow cls typ ln errs r0).fatal with
    | some e0 => simp [hc]
    | none =>
      simp only [hc] at h ⊢
      exact ih _ _ _ h

theorem runRows_snoc_ok (cls : String) (typ : StructType) (rows : List KVRow)
    (row : KVRow) (ln : Nat) (recs : List Record) (errs : List RecordError)
    (h : (runRows cls typ rows ln recs errs).fatal = none) :
    runRows cls typ (rows ++ [row]) ln recs errs =
      (let r := runRows cls typ rows ln recs errs
       let c := runRow cls typ r.line r.errs row
       match c.fatal with
       | some e => ⟨r.recs, c.errs, r.line, some e⟩
       | none => ⟨r.recs ++ [c.record], c.errs, r.line + 1, none⟩) := by
  induction rows generalizing ln recs errs with
  | nil => simp [runRows]
  | cons r0 rest ih =>
    simp only [List.cons_append, runRows]
    simp only [runRows] at h
    cases hc : (runRow cls typ ln errs r0).fatal with
    | some e0 => simp [hc] at h
    | none =>
      simp only [hc] at h ⊢
      exact ih _ _ _ h

theorem inv_init (cls : String) (typ : StructType) :
    Inv cls typ (initKV typ) ⟨[], [], false⟩ := by
  refine ⟨fun _ => rfl, Or.inr (Or.inr ?_)⟩
  simp [rowsRes, curAcc, runRows, runRow, initKV]

theorem inv_step (cls : String) (typ : StructType) (st : KVState)
    (fst : FrameState) (raw : String) (h : Inv cls typ st fst) :
    Inv cls typ (processLine cls typ st raw) (frameLine fst raw) := by
  obtain ⟨rows, cur, started⟩ := fst
  obtain ⟨hOK, hD⟩ := h
  rcases hD with ⟨e, hre, hstf, hserr⟩ | ⟨hrn, e, hce, hstf, hserr⟩ |
    ⟨hrn, hcn, hstf, hres, herr, hitem, hcs, hline⟩
  · -- fatal already occurred in a completed row: loop is frozen
    have hpl : processLine cls typ st raw = st := by
      simp [processLine, hstf]
    rw [hpl]
    cases hcl : classifyLine raw with
    | blank =>
      cases hsd : started with
      | false =>
        have hfl : frameLine ⟨rows, cur, false⟩ raw = ⟨rows, cur, false⟩ := by
          simp [frameLine, hcl]
        rw [hfl]
        exact ⟨fun _ => hOK hsd, Or.inl ⟨e, hre, hstf, hserr⟩⟩
      | true =>
        have hfl : frameLine ⟨rows, cur, true⟩ raw = ⟨rows ++ [cur], [], false⟩ := by
          simp [frameLine, hcl]
        rw [hfl]
        have hsnoc := runRows_snoc_fatal cls typ rows cur 1 [] [] e hre
        refine ⟨fun _ => rfl, Or.inl ⟨e, ?_, hstf, ?_⟩⟩
        · show (runRows cls typ (rows ++ [cur]) 1 [] []).fatal = some e
          rw [hsnoc]; exact hre
        · show st.errs = (runRows cls typ (rows ++ [cur]) 1 [] []).errs
          rw [hsnoc]; exact hserr
    | junk =>
      have hfl : frameLine ⟨rows, cur, started⟩ raw = ⟨rows, cur, true⟩ := by
        simp [frameLine, hcl]
      rw [hfl]
      exact ⟨fun hc => by simp at hc, Or.inl ⟨e, hre, hstf, hserr⟩⟩
    | pair name val =>
      have hfl : frameLine ⟨rows, cur, started⟩ raw =
          ⟨rows, cur ++ [(name, val)], true⟩ := by
        simp [frameLine, hcl]
      rw [hfl]
      exact ⟨fun hc => by simp at hc, Or.inl ⟨e, hre, hstf, hserr⟩⟩
  · -- fatal already occurred in the in-progress row
    have hpl : processLine cls typ st raw = st := by
      simp [processLine, hstf]
    rw [hpl]
    cases hcl : classifyLine raw with
    | blank =>
      cases hsd : started with
      | false =>
        exfalso
        have hcur : cur = [] := hOK hsd
        rw [hcur] at hce
        simp [curAcc, runRow] at hce
      | true =>
        have hfl : frameLine ⟨rows, cur, true⟩ raw = ⟨rows ++ [cur], [], false⟩ := by
          simp [frameLine, hcl]
        rw [hfl]
        have hsnoc := runRows_snoc_ok cls typ rows cur 1 [] [] hrn
        simp only [curAcc, rowsRes] at hce hserr
        refine ⟨fun _ => rfl, Or.inl ⟨e, ?_, hstf, ?_⟩⟩
        · show (runRows cls typ (rows ++ [cur]) 1 [] []).fatal = some e
          rw [hsnoc]
          simp [hce]
        · show st.errs = (runRows cls typ (rows ++ [cur]) 1 [] []).errs
          rw [hsnoc]
          simp [hce]
          exact hserr
    | junk =>
      have hfl : frameLine ⟨rows, cur, started⟩ raw = ⟨rows, cur, true⟩ := by
        simp [frameLine, hcl]
      rw [hfl]
      exact ⟨fun hc => by simp at hc,
        Or.inr (Or.inl ⟨hrn, e, hce, hstf, hserr⟩)⟩
    | pair name val =>
      have hfl : frameLine ⟨rows, cur, started⟩ raw =
          ⟨rows, cur ++ [(name, val)], true⟩ := by
        simp [frameLine, hcl]
      rw [hfl]
      have hext : curAcc cls typ ⟨rows, cur ++ [(name, val)], true⟩ =
          curAcc cls typ ⟨rows, cur, started⟩ := by
        simp only [curAcc, rowsRes, runRow]
        rw [List.foldl_append]
        simp only [List.foldl_cons, List.foldl_nil]
        exact pairStep_frozen cls _ _ (name, val) e hce
      refine ⟨fun hc => by simp at hc,
        Or.inr (Or.inl ⟨hrn, e, ?_, hstf, ?_⟩)⟩
      · rw [hext]; exact hce
      · rw [hext]; exact hserr
  · -- live state
    cases hcl : classifyLine raw with
    | blank =>
      cases hsd : started with
      | false =>
        have hcsf : st.contentStarted = false := by simp [hcs, hsd]
        have hpl : processLine cls typ st raw = st := by
          simp [processLine, hstf, hcl, hcsf]
        have hfl : frameLine ⟨rows, cur, false⟩ raw = ⟨rows, cur, false⟩ := by
          simp [frameLine, hcl]
        rw [hpl, hfl]
        exact ⟨fun _ => hOK hsd,
          Or.inr (Or.inr ⟨hrn, hcn, hstf, hres, herr, hitem, hcsf, hline⟩)⟩
      | true =>
        have hcst : st.contentStarted = true := by simp [hcs, hsd]
        have hpl : processLine cls typ st raw =
            ⟨st.result ++ [st.item], newRecord typ, false, st.line + 1,
              st.errs, none⟩ := by
          simp [processLine, hstf, hcl, hcst]
        have hfl : frameLine ⟨rows, cur, true⟩ raw = ⟨rows ++ [cur], [], false⟩ := by
          simp [frameLine, hcl]
        rw [hpl, hfl]
        have hsnoc := runRows_snoc_ok cls typ rows cur 1 [] [] hrn
        simp only [curAcc, rowsRes] at hrn hcn hres herr hitem hline
        have hrecs : (runRows cls typ (rows ++ [cur]) 1 [] []).recs =
            (runRows cls typ rows 1 [] []).recs ++
              [(runRow cls typ (runRows cls typ rows 1 [] []).line
                (runRows cls typ rows 1 [] []).errs cur).record] := by
          rw [hsnoc]; simp [hcn]
        have herrs2 : (runRows cls typ (rows ++ [cur]) 1 [] []).errs =
            (runRow cls typ (runRows cls typ rows 1 [] []).line
              (runRows cls typ rows 1 [] []).errs cur).errs := by
          rw [hsnoc]; simp [hcn]
        have hline2 : (runRows cls typ (rows ++ [cur]) 1 [] []).line =
            (runRows cls typ rows 1 [] []).line + 1 := by
          rw [hsnoc]; simp [hcn]
        have hfat2 : (runRows cls typ (rows ++ [cur]) 1 [] []).fatal = none := by
          rw [hsnoc]; simp [hcn]
        refine ⟨fun _ => rfl, Or.inr (Or.inr ?_)⟩
        refine ⟨?_, ?_, rfl, ?_, ?_, ?_, rfl, ?_⟩
        · exact hfat2
        · show (curAcc cls typ ⟨rows ++ [cur], [], false⟩).fatal = none
          simp [curAcc, runRow]
        · show st.result ++ [st.item] = (runRows cls typ (rows ++ [cur]) 1 [] []).recs
          rw [hrecs, hres, hitem]
        · show st.errs = (curAcc cls typ ⟨rows ++ [cur], [], false⟩).errs
          have : (curAcc cls typ ⟨rows ++ [cur], [], false⟩).errs =
              (runRows cls typ (rows ++ [cur]) 1 [] []).errs := by
            simp [curAcc, rowsRes, runRow]
          rw [this, herrs2, herr]
        · show newRecord typ = (curAcc cls typ ⟨rows ++ [cur], [], false⟩).record
          simp [curAcc, runRow]
        · show st.line + 1 = (runRows cls typ (rows ++ [cur]) 1 [] []).line
          rw [hline2, hline]
    | junk =>
      have hpl : processLine cls typ st raw = { st with contentStarted := true } := by
        simp [processLine, hstf, hcl]
      have hfl : frameLine ⟨rows, cur, started⟩ raw = ⟨rows, cur, true⟩ := by
        simp [frameLine, hcl]
      rw [hpl, hfl]
      exact ⟨fun hc => by simp at hc,
        Or.inr (Or.inr ⟨hrn, hcn, hstf, hres, herr, hitem, rfl, hline⟩)⟩
    | pair name val =>
      have hfl : frameLine ⟨rows, cur, started⟩ raw =
          ⟨rows, cur ++ [(name, val)], true⟩ := by
        simp [frameLine, hcl]
      have hstep : curAcc cls typ ⟨rows, cur ++ [(name, val)], true⟩ =
          pairStep cls (rowsRes cls typ ⟨rows, cur, started⟩).line
            (curAcc cls typ ⟨rows, cur, started⟩) (name, val) := by
        simp only [curAcc, rowsRes, runRow]
        rw [List.foldl_append]
        simp
      have hrr : rowsRes cls typ ⟨rows, cur ++ [(name, val)], true⟩ =
          rowsRes cls typ ⟨rows, cur, started⟩ := rfl
      cases hsf : (setField st.item name val).2 with
      | none =>
        have hpl : processLine cls typ st raw =
            { st with contentStarted := true,
                      item := (setField st.item name val).1 } := by
          simp [processLine, hstf, hcl, hsf]
        rw [hpl, hfl]
        have hca : curAcc cls typ ⟨rows, cur ++ [(name, val)], true⟩ =
            ⟨(setField st.item name val).1,
              (curAcc cls typ ⟨rows, cur, started⟩).errs, none⟩ := by
          rw [hstep]
          rw [hitem] at hsf ⊢
          simp [pairStep, hcn, hsf]
        refine ⟨fun hc => by simp at hc, Or.inr (Or.inr ?_)⟩
        rw [hrr, hca]
        exact ⟨hrn, rfl, hstf, hres, herr, rfl, rfl, hline⟩
      | some e =>
        cases hef : e.isFatal with
        | true =>
          have hpl : processLine cls typ st raw =
              { st with contentStarted := true, fatal := some e } := by
            simp [processLine, hstf, hcl, hsf, hef]
          rw [hpl, hfl]
          have hca : curAcc cls typ ⟨rows, cur ++ [(name, val)], true⟩ =
              ⟨(curAcc cls typ ⟨rows, cur, started⟩).record,
                (curAcc cls typ ⟨rows, cur, started⟩).errs, some e⟩ := by
            rw [hstep]
            rw [hitem] at hsf
            simp [pairStep, hcn, hsf, hef]
          refine ⟨fun hc => by simp at hc,
            Or.inr (Or.inl ⟨hrn, e, ?_, rfl, ?_⟩)⟩
          · rw [hca]
          · rw [hca]
            rw [herr]
        | false =>
          have hpl : processLine cls typ st raw =
              { st with contentStarted := true,
                        errs := st.errs ++ [⟨cls, name, st.line, e.message⟩] } := by
            simp [processLine, hstf, hcl, hsf, hef]
          rw [hpl, hfl]
          have hca : curAcc cls typ ⟨rows, cur ++ [(name, val)], true⟩ =
              ⟨(curAcc cls typ ⟨rows, cur, started⟩).record,
                (curAcc cls typ ⟨rows, cur, started⟩).errs ++
                  [⟨cls, name, (rowsRes cls typ ⟨rows, cur, started⟩).line,
                    e.message⟩], none⟩ := by
            rw [hstep]
            rw [hitem] at hsf
            simp [pairStep, hcn, hsf, hef]
          refine ⟨fun hc => by simp at hc, Or.inr (Or.inr ?_)⟩
          rw [hrr, hca]
          refine ⟨hrn, rfl, hstf, hres, ?_, hitem, rfl, hline⟩
          rw [herr, hline]

theorem inv_fold (cls : String) (typ : StructType) (ls : List String) :
    ∀ (st : KVState) (fst : FrameState), Inv cls typ st fst →
      Inv cls typ (ls.foldl (processLine cls typ) st) (ls.foldl frameLine fst) := by
  induction ls with
  | nil => exact fun st fst h => h
  | cons l rest ih =>
    intro st fst h
    simp only [List.foldl_cons]
    exact ih _ _ (inv_step cls typ st fst l h)

theorem inv_finish (cls : String) (typ : StructType) (st : KVState)
    (fst : FrameState) (out0 : List Record) (h : Inv cls typ st fst) :
    kvFinish st out0 = decodeKVSpec cls typ (frameFinish fst) out0 := by
  obtain ⟨rows, cur, started⟩ := fst
  obtain ⟨hOK, hD⟩ := h
  rcases hD with ⟨e, hre, hstf, hserr⟩ | ⟨hrn, e, hce, hstf, hserr⟩ |
    ⟨hrn, hcn, hstf, hres, herr, hitem, hcs, hline⟩
  · -- fatal in a completed row
    have hkv : kvFinish st out0 = (st.errs, some e, out0) := by
      simp [kvFinish, hstf]
    cases hsd : started with
    | false =>
      have hff : frameFinish ⟨rows, cur, false⟩ = rows := by
        simp [frameFinish]
      rw [hkv, hff]
      simp only [decodeKVSpec]
      simp only [rowsRes] at hre hserr
      rw [hserr]
      simp [hre]
    | true =>
      have hff : frameFinish ⟨rows, cur, true⟩ = rows ++ [cur] := by
        simp [frameFinish]
      rw [hkv, hff]
      simp only [decodeKVSpec]
      simp only [rowsRes] at hre hserr
      rw [runRows_snoc_fatal cls typ rows cur 1 [] [] e hre]
      rw [hserr]
      simp [hre]
  · -- fatal in the in-progress row
    have hkv : kvFinish st out0 = (st.errs, some e, out0) := by
      simp [kvFinish, hstf]
    cases hsd : started with
    | false =>
      exfalso
      have hcur : cur = [] := hOK hsd
      rw [hcur] at hce
      simp [curAcc, runRow] at hce
    | true =>
      have hff : frameFinish ⟨rows, cur, true⟩ = rows ++ [cur] := by
        simp [frameFinish]
      rw [hkv, hff]
      simp only [decodeKVSpec]
      simp only [rowsRes] at hrn
      simp only [curAcc, rowsRes] at hce hserr
      rw [runRows_snoc_ok cls typ rows cur 1 [] [] hrn]
      simp only [hce]
      rw [hserr]
  · -- live
    cases hsd : started with
    | false =>
      have hcur : cur = [] := hOK hsd
      have hff : frameFinish ⟨rows, cur, false⟩ = rows := by
        simp [frameFinish]
      have hcsf : st.contentStarted = false := by simp [hcs, hsd]
      have hkv : kvFinish st out0 = (st.errs, none, st.result) := by
        simp [kvFinish, hstf, hcsf]
      rw [hkv, hff]
      simp only [decodeKVSpec]
      simp only [rowsRes] at hrn hres
      simp only [curAcc, rowsRes, hcur, runRow, List.foldl_nil] at herr
      rw [herr, hres]
      simp [hrn]
    | true =>
      have hff : frameFinish ⟨rows, cur, true⟩ = rows ++ [cur] := by
        simp [frameFinish]
      have hcst : st.contentStarted = true := by simp [hcs, hsd]
      have hkv : kvFinish st out0 = (st.errs, none, st.result ++ [st.item]) := by
        simp [kvFinish, hstf, hcst]
      rw [hkv, hff]
      simp only [decodeKVSpec]
      simp only [rowsRes] at hrn hres hline
      simp only [curAcc, rowsRes] at hcn herr hitem
      rw [runRows_snoc_ok cls typ rows cur 1 [] [] hrn]
      simp only [hcn]
      rw [hres, hitem, herr]

/-- Master simulation theorem: the interleaved decode loop of
`QueryWithTimeout` equals the compositional pipeline that first frames the
text into rows and then decodes the framed rows. -/
theorem decodeKV_eq_spec (cls : String) (typ : StructType) (text : String)
    (out0 : List Record) :
    decodeKV cls typ text out0 = decodeKVSpec cls typ (frameKV text) out0 := by
  have h := inv_fold cls typ (scanLines text) (initKV typ) ⟨[], [], false⟩
    (inv_init cls typ)
  exact inv_finish cls typ _ _ out0 h

/-! ## Characterization of the spec-side decoders -/

theorem rowPreErrs_flag_false (cls : String) (typ : StructType) (ln : Nat) :
    ∀ (row : KVRow), (rowPreErrs cls typ ln row).2 = false →
      ∀ p, p ∈ row → pairOutcome typ p ≠ .fatal := by
  intro row
  induction row with
  | nil => intro _ p hp; simp at hp
  | cons q rest ih =>
    intro hf p hp
    cases ho : pairOutcome typ q with
    | fatal => simp [rowPreErrs, ho] at hf
    | ok =>
      simp only [rowPreErrs, ho] at hf
      rcases List.mem_cons.mp hp with hq | hr
      · rw [hq, ho]; simp
      · exact ih hf p hr
    | recov =>
      simp only [rowPreErrs, ho] at hf
      rcases List.mem_cons.mp hp with hq | hr
      · rw [hq, ho]; simp
      · exact ih hf p hr

theorem rowFold_spec (cls : String) (typ : StructType) (ln : Nat) :
    ∀ (row : KVRow) (acc : PairAcc), acc.fatal = none → shape acc.record = typ →
      ((row.foldl (pairStep cls ln) acc).errs =
        acc.errs ++ (rowPreErrs cls typ ln row).1) ∧
      ((row.foldl (pairStep cls ln) acc).fatal = none ↔
        (rowPreErrs cls typ ln row).2 = false) ∧
      ((rowPreErrs cls typ ln row).2 = false →
        (row.foldl (pairStep cls ln) acc).record = applyRowFold acc.record row ∧
        shape (row.foldl (pairStep cls ln) acc).record = typ) := by
  intro row
  induction row with
  | nil =>
    intro acc hfat hsh
    refine ⟨by simp [rowPreErrs], by simp [rowPreErrs, hfat], ?_⟩
    intro _
    exact ⟨by simp [applyRowFold], by simpa using hsh⟩
  | cons p rest ih =>
    intro acc hfat hsh
    obtain ⟨pn, pv⟩ := p
    have hpo := setField_pairOutcome acc.record pn pv
    rw [hsh] at hpo
    cases ho : pairOutcome typ (pn, pv) with
    | ok =>
      have hsf : (setField acc.record pn pv).2 = none := hpo.1.mpr ho
      have hstep : pairStep cls ln acc (pn, pv) =
          ⟨(setField acc.record pn pv).1, acc.errs, none⟩ := by
        simp [pairStep, hfat, hsf]
      have hsh2 : shape (setField acc.record pn pv).1 = typ := by
        rw [setField_shape]; exact hsh
      have := ih ⟨(setField acc.record pn pv).1, acc.errs, none⟩ rfl hsh2
      simp only [List.foldl_cons, hstep]
      refine ⟨?_, ?_, ?_⟩
      · rw [this.1]
        simp [rowPreErrs, ho]
      · rw [this.2.1]
        simp [rowPreErrs, ho]
      · intro hff
        simp only [rowPreErrs, ho] at hff
        refine ⟨?_, (this.2.2 hff).2⟩
        rw [(this.2.2 hff).1]
        simp [applyRowFold]
    | recov =>
      have hsf : (setField acc.record pn pv).2 =
          some (.valueError (coerceMsg pv)) := hpo.2.1.mpr ho
      have hstep : pairStep cls ln acc (pn, pv) =
          ⟨acc.record, acc.errs ++ [⟨cls, pn, ln, coerceMsg pv⟩], none⟩ := by
        simp [pairStep, hfat, hsf, SetError.isFatal, SetError.message]
      have := ih ⟨acc.record, acc.errs ++ [⟨cls, pn, ln, coerceMsg pv⟩], none⟩
        rfl hsh
      simp only [List.foldl_cons, hstep]
      refine ⟨?_, ?_, ?_⟩
      · rw [this.1]
        simp [rowPreErrs, ho]
      · rw [this.2.1]
        simp [rowPreErrs, ho]
      · intro hff
        simp only [rowPreErrs, ho] at hff
        refine ⟨?_, (this.2.2 hff).2⟩
        rw [(this.2.2 hff).1]
        have hrec : (setField acc.record pn pv).1 = acc.record :=
          setField_err_unchanged acc.record pn pv (by simp [hsf])
        simp [applyRowFold, hrec]
    | fatal =>
      obtain ⟨e, hsf, hef⟩ := hpo.2.2.mpr ho
      have hstep : pairStep cls ln acc (pn, pv) =
          ⟨acc.record, acc.errs, some e⟩ := by
        simp [pairStep, hfat, hsf, hef]
      have hfroz := foldl_pairStep_frozen cls ln rest
        ⟨acc.record, acc.errs, some e⟩ e rfl
      simp only [List.foldl_cons, hstep, hfroz]
      refine ⟨by simp [rowPreErrs, ho], by simp [rowPreErrs, ho], ?_⟩
      intro hff
      simp [rowPreErrs, ho] at hff

theorem runRow_spec (cls : String) (typ : StructType) (ln : Nat)
    (errs : List RecordError) (row : KVRow) :
    ((runRow cls typ ln errs row).errs = errs ++ (rowPreErrs cls typ ln row).1) ∧
    ((runRow cls typ ln errs row).fatal = none ↔
      (rowPreErrs cls typ ln row).2 = false) ∧
    ((rowPreErrs cls typ ln row).2 = false →
      (runRow cls typ ln errs row).record = applyRowPure typ row) := by
  have h := rowFold_spec cls typ ln row ⟨newRecord typ, errs, none⟩ rfl
    (shape_newRecord typ)
  exact ⟨h.1, h.2.1, fun hf => (h.2.2 hf).1⟩

theorem runRows_errs (cls : String) (typ : StructType) :
    ∀ (rows : List KVRow) (ln : Nat) (recs : List Record)
      (errs : List RecordError),
      (runRows cls typ rows ln recs errs).errs = errs ++ preFatalErrs cls typ ln rows := by
  intro rows
  induction rows with
  | nil => intro ln recs errs; simp [runRows, preFatalErrs]
  | cons row rest ih =>
    intro ln recs errs
    have hrf := runRow_spec cls typ ln errs row
    cases hc : (runRow cls typ ln errs row).fatal with
    | some e =>
      have hflag : (rowPreErrs cls typ ln row).2 = true := by
        rcases hb : (rowPreErrs cls typ ln row).2 with _ | _
        · exact absurd ((hrf.2.1).mpr hb) (by rw [hc]; simp)
        · rfl
      simp only [runRows, hc]
      rw [hrf.1]
      simp [preFatalErrs, hflag]
    | none =>
      have hflag : (rowPreErrs cls typ ln row).2 = false := (hrf.2.1).mp hc
      simp only [runRows, hc]
      rw [ih (ln + 1) (recs ++ [(runRow cls typ ln errs row).record])
        (runRow cls typ ln errs row).errs]
      rw [hrf.1]
      simp [preFatalErrs, hflag]

theorem runRows_recs (cls : String) (typ : StructType) :
    ∀ (rows : List KVRow) (ln : Nat) (recs : List Record)
      (errs : List RecordError),
      (runRows cls typ rows ln recs errs).fatal = none →
      (runRows cls typ rows ln recs errs).recs = recs ++ rows.map (applyRowPure typ) := by
  intro rows
  induction rows with
  | nil => intro ln recs errs _; simp [runRows]
  | cons row rest ih =>
    intro ln recs errs hnf
    have hrf := runRow_spec cls typ ln errs row
    cases hc : (runRow cls typ ln errs row).fatal with
    | some e => simp [runRows, hc] at hnf
    | none =>
      have hflag : (rowPreErrs cls typ ln row).2 = false := (hrf.2.1).mp hc
      have hrec : (runRow cls typ ln errs row).record =
          applyRowPure typ row := hrf.2.2 hflag
      simp only [runRows, hc] at hnf ⊢
      rw [ih (ln + 1) _ _ hnf, hrec]
      simp

theorem runRows_noFatal_outcomes (cls : String) (typ : StructType) :
    ∀ (rows : List KVRow) (ln : Nat) (recs : List Record)
      (errs : List RecordError),
      (runRows cls typ rows ln recs errs).fatal = none →
      ∀ row, row ∈ rows → ∀ p, p ∈ row → pairOutcome typ p ≠ .fatal := by
  intro rows
  induction rows with
  | nil => intro ln recs errs _ row hr; simp at hr
  | cons row0 rest ih =>
    intro ln recs errs hnf row hr p hp
    have hrf := runRow_spec cls typ ln errs row0
    cases hc : (runRow cls typ ln errs row0).fatal with
    | some e => simp [runRows, hc] at hnf
    | none =>
      have hflag : (rowPreErrs cls typ ln row0).2 = false := (hrf.2.1).mp hc
      simp only [runRows, hc] at hnf
      rcases List.mem_cons.mp hr with h0 | hrest
      · exact rowPreErrs_flag_false cls typ ln row0 hflag p (h0 ▸ hp)
      · exact ih (ln + 1) _ _ hnf row hrest p hp

theorem rowFold_fatal_fieldError (cls : String) (typ : StructType) (ln : Nat)
    (hok : kindsOK typ = true) :
    ∀ (row : KVRow) (acc : PairAcc), acc.fatal = none → shape acc.record = typ →
      ∀ e, (row.foldl (pairStep cls ln) acc).fatal = some e →
      ∃ g, e = .fieldError g := by
  intro row
  induction row with
  | nil => intro acc hfat _ e h; rw [List.foldl_nil, hfat] at h; cases h
  | cons p rest ih =>
    intro acc hfat hsh e h
    obtain ⟨pn, pv⟩ := p
    cases hsf : (setField acc.record pn pv).2 with
    | none =>
      have hstep : pairStep cls ln acc (pn, pv) =
          ⟨(setField acc.record pn pv).1, acc.errs, none⟩ := by
        simp [pairStep, hfat, hsf]
      rw [List.foldl_cons, hstep] at h
      exact ih ⟨(setField acc.record pn pv).1, acc.errs, none⟩ rfl
        (by rw [setField_shape]; exact hsh) e h
    | some e0 =>
      cases hef : e0.isFatal with
      | true =>
        have hstep : pairStep cls ln acc (pn, pv) =
            ⟨acc.record, acc.errs, some e0⟩ := by
          simp [pairStep, hfat, hsf, hef]
        rw [List.foldl_cons, hstep,
          foldl_pairStep_frozen cls ln rest ⟨acc.record, acc.errs, some e0⟩ e0 rfl]
          at h
        simp only at h
        have he := Option.some.inj h
        subst he
        exact setField_fatal_fieldError acc.record pn pv _ (by rw [hsh]; exact hok)
          hsf hef
      | false =>
        have hstep : pairStep cls ln acc (pn, pv) =
            ⟨acc.record, acc.errs ++ [⟨cls, pn, ln, e0.message⟩], none⟩ := by
          simp [pairStep, hfat, hsf, hef]
        rw [List.foldl_cons, hstep] at h
        exact ih ⟨acc.record, acc.errs ++ [⟨cls, pn, ln, e0.message⟩], none⟩ rfl hsh e h

theorem runRows_fatal_fieldError (cls : String) (typ : StructType)
    (hok : kindsOK typ = true) :
    ∀ (rows : List KVRow) (ln : Nat) (recs : List Record)
      (errs : List RecordError) (e : SetError),
      (runRows cls typ rows ln recs errs).fatal = some e →
      ∃ g, e = .fieldError g := by
  intro rows
  induction rows with
  | nil => intro ln recs errs e h; simp [runRows] at h
  | cons row rest ih =>
    intro ln recs errs e h
    cases hc : (runRow cls typ ln errs row).fatal with
    | some e0 =>
      simp only [runRows, hc] at h
      have he := Option.some.inj h
      subst he
      exact rowFold_fatal_fieldError cls typ ln hok row
        ⟨newRecord typ, errs, none⟩ rfl (shape_newRecord typ) _ hc
    | none =>
      simp only [runRows, hc] at h
      exact ih (ln + 1) _ _ e h

theorem applyRowFold_zero (typ : StructType) :
    ∀ (row : KVRow) (rec : Record) (g : String), shape rec = typ →
      (∀ p, p ∈ row → p.1 = g → pairOutcome typ p = .recov) →
      lookupVal (applyRowFold rec row) g = lookupVal rec g := by
  intro row
  induction row with
  | nil => intro rec g _ _; simp [applyRowFold]
  | cons p rest ih =>
    intro rec g hsh hrec
    obtain ⟨pn, pv⟩ := p
    by_cases hg : pn = g
    · subst hg
      have ho : pairOutcome typ (pn, pv) = .recov :=
        hrec (pn, pv) (List.mem_cons_self _ _) rfl
      have hpo := setField_pairOutcome rec pn pv
      rw [hsh] at hpo
      have hsf : (setField rec pn pv).2 = some (.valueError (coerceMsg pv)) :=
        hpo.2.1.mpr ho
      have hunch : (setField rec pn pv).1 = rec :=
        setField_err_unchanged rec pn pv (by simp [hsf])
      have : applyRowFold rec ((pn, pv) :: rest) = applyRowFold rec rest := by
        simp [applyRowFold, hunch]
      rw [this]
      exact ih rec pn hsh (fun q hq => hrec q (List.mem_cons_of_mem _ hq))
    · have : applyRowFold rec ((pn, pv) :: rest) =
          applyRowFold (setField rec pn pv).1 rest := by
        simp [applyRowFold]
      rw [this]
      rw [ih (setField rec pn pv).1 g (by rw [setField_shape]; exact hsh)
        (fun q hq => hrec q (List.mem_cons_of_mem _ hq))]
      exact setField_lookup_ne rec pn pv g hg

/-! ## Terminating blank lines do not change the decode -/

theorem scanLinesAux_two_nl :
    ∀ (cs acc : List Char),
      ∃ p, (p = [""] ∨ p = ["", ""]) ∧
        scanLinesAux acc (cs ++ ['\n', '\n']) = scanLinesAux acc cs ++ p := by
  intro cs
  induction cs with
  | nil =>
    intro acc
    by_cases h : acc.isEmpty
    · refine ⟨["", ""], Or.inr rfl, ?_⟩
      have hae : acc = [] := by
        cases acc with
        | nil => rfl
        | cons c rest => simp at h
      subst hae
      simp [scanLinesAux, mkLine]
    · refine ⟨[""], Or.inl rfl, ?_⟩
      simp [scanLinesAux, h, mkLine]
  | cons c rest ih =>
    intro acc
    by_cases hc : c = '\n'
    · subst hc
      obtain ⟨p, hp, heq⟩ := ih []
      refine ⟨p, hp, ?_⟩
      simp [scanLinesAux, heq]
    · obtain ⟨p, hp, heq⟩ := ih (c :: acc)
      refine ⟨p, hp, ?_⟩
      simp [scanLinesAux, hc, heq]

theorem classifyLine_empty : classifyLine "" = .blank := rfl

theorem processLine_blank (cls : String) (typ : StructType) (st : KVState) :
    processLine cls typ st "" =
      (if st.fatal.isSome then st
       else if st.contentStarted then
         ⟨st.result ++ [st.item], newRecord typ, false, st.line + 1, st.errs, none⟩
       else st) := by
  simp [processLine, classifyLine_empty]

theorem processLine_blank_twice (cls : String) (typ : StructType) (st : KVState) :
    processLine cls typ (processLine cls typ st "") "" =
      processLine cls typ st "" := by
  cases hf : st.fatal with
  | some e => simp [processLine_blank, hf]
  | none =>
    cases hcs : st.contentStarted with
    | false => simp [processLine_blank, hf, hcs]
    | true => simp [processLine_blank, hf, hcs]

theorem kvFinish_blank (cls : String) (typ : StructType) (st : KVState)
    (out0 : List Record) :
    kvFinish (processLine cls typ st "") out0 = kvFinish st out0 := by
  cases hf : st.fatal with
  | some e => simp [processLine_blank, hf]
  | none =>
    cases hcs : st.contentStarted with
    | false => simp [processLine_blank, hf, hcs]
    | true => simp [processLine_blank, kvFinish, hf, hcs]

theorem frameLine_blank (st : FrameState) :
    frameLine st "" = (if st.started then ⟨st.rows ++ [st.cur], [], false⟩ else st) := by
  simp [frameLine, classifyLine_empty]

theorem frameLine_blank_twice (st : FrameState) :
    frameLine (frameLine st "") "" = frameLine st "" := by
  cases hs : st.started with
  | false => simp [frameLine_blank, hs]
  | true => simp [frameLine_blank, hs]

theorem frameFinish_blank (st : FrameState) :
    frameFinish (frameLine st "") = frameFinish st := by
  cases hs : st.started with
  | false => simp [frameLine_blank, hs]
  | true => simp [frameLine_blank, frameFinish, hs]

/-! ## CSV pipeline lemmas -/

theorem decodeCSVRows_eq_mapExcept (typ : StructType) (hdr : List String) :
    ∀ (rs : List (List String)),
      decodeCSVRows typ hdr rs =
        mapExcept (decodeCSVRow typ hdr)
          (rs.filter (fun r => r.length == hdr.length)) := by
  intro rs
  induction rs with
  | nil => rfl
  | cons r rest ih =>
    cases hlen : (r.length == hdr.length) with
    | false => simp [decodeCSVRows, List.filter_cons, hlen, ih]
    | true =>
      cases hd : decodeCSVRow typ hdr r with
      | error e => simp [decodeCSVRows, List.filter_cons, hlen, hd, mapExcept]
      | ok rec =>
        cases hrest : decodeCSVRows typ hdr rest with
        | error e =>
          simp [decodeCSVRows, List.filter_cons, hlen, hd, hrest, mapExcept, ← ih]
        | ok recs =>
          simp [decodeCSVRows, List.filter_cons, hlen, hd, hrest, mapExcept, ← ih]

theorem filter_eraseIdx {α : Type} (p : α → Bool) :
    ∀ (rs : List α) (i : Nat) (bad : α), rs[i]? = some bad → p bad = false →
      (rs.eraseIdx i).filter p = rs.filter p := by
  intro rs
  induction rs with
  | nil => intro i bad h _; simp at h
  | cons a rest ih =>
    intro i bad h hp
    cases i with
    | zero =>
      simp only [List.getElem?_cons_zero, Option.some.injEq] at h
      subst h
      simp [List.eraseIdx, List.filter_cons, hp]
    | succ j =>
      simp only [List.getElem?_cons_succ] at h
      simp only [List.eraseIdx]
      cases hpa : p a with
      | false => simp [List.filter_cons, hpa, ih j bad h hp]
      | true => simp [List.filter_cons, hpa, ih j bad h hp]

theorem mapExcept_error {α β ε : Type} (f : α → Except ε β) :
    ∀ (l : List α) (e : ε), mapExcept f l = .error e →
      ∃ a, a ∈ l ∧ f a = .error e := by
  intro l
  induction l with
  | nil => intro e h; simp [mapExcept] at h
  | cons a rest ih =>
    intro e h
    cases hf : f a with
    | error e0 =>
      simp only [mapExcept, hf] at h
      cases h
      exact ⟨a, List.mem_cons_self a rest, hf⟩
    | ok b =>
      cases hrest : mapExcept f rest with
      | error e0 =>
        simp only [mapExcept, hf, hrest] at h
        cases h
        obtain ⟨a0, ha0, hfa0⟩ := ih _ hrest
        exact ⟨a0, List.mem_cons_of_mem a ha0, hfa0⟩
      | ok bs => simp [mapExcept, hf, hrest] at h

theorem filter_no_quote :
    ∀ (cs : List Char),
      (cs.filter (fun c => c ≠ '"')).filter (fun c => c = '"') = [] := by
  intro cs
  induction cs with
  | nil => rfl
  | cons c rest ih =>
    by_cases h : c = '"' <;> simp [List.filter_cons, h, ih]

theorem csvPreprocess_fold_no_quote :
    ∀ (ls : List String) (acc : String),
      acc.data.filter (fun c => c = '"') = [] →
      ((ls.foldl
          (fun acc l =>
            if trimSpace l = "" then acc else acc ++ removeQuotes l ++ "\n")
          acc).data.filter (fun c => c = '"')) = [] := by
  intro ls
  induction ls with
  | nil => intro acc h; exact h
  | cons l rest ih =>
    intro acc h
    simp only [List.foldl_cons]
    by_cases ht : trimSpace l = ""
    · rw [if_pos ht]
      exact ih acc h
    · rw [if_neg ht]
      refine ih _ ?_
      simp only [String.data_append, List.filter_append]
      rw [h]
      have h2 : (removeQuotes l).data.filter (fun c => c = '"') = [] := by
        simp only [removeQuotes]
        exact filter_no_quote l.data
      rw [h2]
      rfl

/-- No quote character survives the CSV preprocessing. -/
theorem csvPreprocess_no_quote (t : String) :
    (csvPreprocess t).data.filter (fun c => c = '"') = [] :=
  csvPreprocess_fold_no_quote (scanLines t) "" rfl

/-! ## Junk-only blocks in the key/value framing -/

theorem junk_fold (cls : String) (typ : StructType) :
    ∀ (ls : List String) (b : Bool),
      (∀ l, l ∈ ls → classifyLine l = .junk) → ls ≠ [] →
      ls.foldl (processLine cls typ) ⟨[], newRecord typ, b, 1, [], none⟩ =
        ⟨[], newRecord typ, true, 1, [], none⟩ := by
  intro ls
  induction ls with
  | nil => intro b _ hne; exact absurd rfl hne
  | cons l rest ih =>
    intro b hall _
    simp only [List.foldl_cons]
    have hj := hall l (List.mem_cons_self l rest)
    have hstep : processLine cls typ ⟨[], newRecord typ, b, 1, [], none⟩ l =
        ⟨[], newRecord typ, true, 1, [], none⟩ := by
      simp [processLine, hj]
    rw [hstep]
    cases rest with
    | nil => rfl
    | cons r rs =>
      exact ih true (fun x hx => hall x (List.mem_cons_of_mem l hx)) (by simp)

/-! ## Claim theorems -/

/-- C1: the claim says a non-empty explicit column list is emitted after the
`GET` token by every call shape. `QueryWithTimeout` and the CSV-pipeline
`Query` do emit it, but the key/value-pipeline `Query` (src/wmi.go:76)
forwards an empty column list in place of its `columns` parameter, so a
`QueryColumns`/`Query` call there emits the schema-derived list instead:
evaluated at the failing input `columns = ["Name"]` against the
`Name`/`Age` struct, the generated list carries `"Name,Age"`, not `"Name"`. -/
theorem c1_query_drops_explicit_columns :
    queryArgs "Win32_BIOS" ["Name"] "" demoT =
      ["PATH", "Win32_BIOS", "GET", "Name,Age", "/format:rawxml", "/VALUE"] ∧
    queryWithTimeoutArgs "Win32_BIOS" ["Name"] "" demoT =
      ["PATH", "Win32_BIOS", "GET", "Name", "/format:rawxml", "/VALUE"] ∧
    csvQueryArgs "Win32_BIOS" ["Name"] "" =
      ["PATH", "Win32_BIOS", "GET", "Name", "/format:csv"] ∧
    queryArgs "Win32_BIOS" ["Name"] "" demoT ≠
      queryWithTimeoutArgs "Win32_BIOS" ["Name"] "" demoT := by
  refine ⟨?_, ?_, ?_, ?_⟩ <;> decide

/-- C2: in both framings, a successful decode returns exactly the framed
rows, decoded in input order with no reordering, deduplication or sorting:
the key/value decode equals the map of the row decoder over the framed
rows, and the CSV decode equals the element-wise decode of the well-formed
(header-width) rows in order. -/
theorem c2_rows_decoded_in_order :
    (∀ (cls : String) (typ : StructType) (text : String) (out0 : List Record)
        (errs : List RecordError) (recs : List Record),
        decodeKV cls typ text out0 = (errs, none, recs) →
        recs = (frameKV text).map (applyRowPure typ)) ∧
    (∀ (typ : StructType) (hdr : List String) (rs : List (List String))
        (recs : List Record),
        decodeCSVRows typ hdr rs = .ok recs →
        mapExcept (decodeCSVRow typ hdr)
          (rs.filter (fun r => r.length == hdr.length)) = .ok recs) := by
  constructor
  · intro cls typ text out0 errs recs h
    rw [decodeKV_eq_spec] at h
    simp only [decodeKVSpec] at h
    cases hf : (runRows cls typ (frameKV text) 1 [] []).fatal with
    | some e => rw [hf] at h; simp at h
    | none =>
      rw [hf] at h
      simp only [Prod.mk.injEq] at h
      obtain ⟨h1, -, h3⟩ := h
      rw [← h3, runRows_recs cls typ (frameKV text) 1 [] [] hf]
      simp
  · intro typ hdr rs recs h
    rw [decodeCSVRows_eq_mapExcept] at h
    exact h

/-- C2 witness: the spec §8 key/value example (Alice/Bob) and the delimited
Carol example, decoded concretely. -/
theorem c2_rows_decoded_in_order_witness :
    decodeKV "C" demoT aliceBobText [] =
      ([⟨"C", "Age", 2, coerceMsg "not-a-number"⟩], none, [aliceRec, bobRec]) ∧
    [aliceRec, bobRec] = (frameKV aliceBobText).map (applyRowPure demoT) ∧
    decodeCSVRows demoT ["Name", "Age"] [["Carol", "41"]] = .ok [carolRec] ∧
    mapExcept (decodeCSVRow demoT ["Name", "Age"])
      ([["Carol", "41"]].filter
        (fun r => r.length == (["Name", "Age"] : List String).length)) =
      .ok [carolRec] := by
  refine ⟨by decide, ?_, by rfl, ?_⟩
  · exact c2_rows_decoded_in_order.1 "C" demoT aliceBobText []
      [⟨"C", "Age", 2, coerceMsg "not-a-number"⟩] [aliceRec, bobRec] (by decide)
  · exact c2_rows_decoded_in_order.2 demoT ["Name", "Age"] [["Carol", "41"]]
      [carolRec] (by rfl)

/-- C3: if any framed row carries a field name absent from the destination
struct (whose declared kinds are all supported), the key/value decode
returns a fatal unknown-field error and delivers no records: started from
an empty destination, the destination stays empty no matter how many rows
would otherwise have decoded. -/
theorem c3_unknown_field_fatal_empty :
    ∀ (cls : String) (typ : StructType) (text : String),
      kindsOK typ = true →
      (∃ row, row ∈ frameKV text ∧ ∃ p, p ∈ row ∧ lookupKind typ p.1 = none) →
      ∃ g, (decodeKV cls typ text []).2.1 = some (.fieldError g) ∧
        (decodeKV cls typ text []).2.2 = [] := by
  intro cls typ text hok h
  obtain ⟨row, hrow, p, hp, hlk⟩ := h
  have hout : pairOutcome typ p = .fatal := by
    obtain ⟨pn, pv⟩ := p
    simp only [lookupKind, Option.map_eq_none'] at hlk
    simp [pairOutcome, hlk]
  cases hf : (runRows cls typ (frameKV text) 1 [] []).fatal with
  | none =>
    exact absurd hout
      (runRows_noFatal_outcomes cls typ (frameKV text) 1 [] [] hf row hrow p hp)
  | some e =>
    obtain ⟨g, hg⟩ := runRows_fatal_fieldError cls typ hok (frameKV text)
      1 [] [] e hf
    subst hg
    refine ⟨g, ?_, ?_⟩ <;>
      · rw [decodeKV_eq_spec]
        simp [decodeKVSpec, hf]

/-- C3 witness: two rows that would decode fine followed by a block naming
the unknown field `Nope`. -/
theorem c3_unknown_field_fatal_empty_witness :
    kindsOK demoT = true ∧
    (∃ row, row ∈ frameKV nopeText ∧
      ∃ p, p ∈ row ∧ lookupKind demoT p.1 = none) ∧
    ∃ g, (decodeKV "C" demoT nopeText []).2.1 = some (.fieldError g) ∧
      (decodeKV "C" demoT nopeText []).2.2 = [] := by
  refine ⟨by decide, by decide, ?_⟩
  exact c3_unknown_field_fatal_empty "C" demoT nopeText (by decide) (by decide)

/-- C4: on a fatal-free key/value decode, the returned error list is
exactly one `RecordError` per failing framed pair, in row-major order,
carrying that pair's field name and 1-based row number (`preFatalErrs`
collects precisely those); every framed row still yields a record; and a
field all of whose pairs in a row fail coercion retains its zero value in
that row's record. -/
theorem c4_coercion_errors_recoverable :
    ∀ (cls : String) (typ : StructType) (text : String) (out0 : List Record)
      (errs : List RecordError) (recs : List Record),
      decodeKV cls typ text out0 = (errs, none, recs) →
      errs = preFatalErrs cls typ 1 (frameKV text) ∧
      recs.length = (frameKV text).length ∧
      (∀ (i : Nat) (row : KVRow) (g : String), (frameKV text)[i]? = some row →
        (∀ p, p ∈ row → p.1 = g → pairOutcome typ p = .recov) →
        ∃ rec, recs[i]? = some rec ∧
          lookupVal rec g = lookupVal (newRecord typ) g) := by
  intro cls typ text out0 errs recs h
  rw [decodeKV_eq_spec] at h
  simp only [decodeKVSpec] at h
  cases hf : (runRows cls typ (frameKV text) 1 [] []).fatal with
  | some e => rw [hf] at h; simp at h
  | none =>
    rw [hf] at h
    simp only [Prod.mk.injEq] at h
    obtain ⟨h1, -, h3⟩ := h
    have hrecs := runRows_recs cls typ (frameKV text) 1 [] [] hf
    refine ⟨?_, ?_, ?_⟩
    · rw [← h1, runRows_errs cls typ (frameKV text) 1 [] []]
      simp
    · rw [← h3, hrecs]
      simp
    · intro i row g hrow hall
      refine ⟨applyRowPure typ row, ?_, ?_⟩
      · rw [← h3, hrecs]
        simp [hrow]
      · exact applyRowFold_zero typ row (newRecord typ) g (shape_newRecord typ) hall

/-- C4 witness: in the Alice/Bob example, exactly one error (field `Age`,
row 2) is returned, both rows decode, and Bob's `Age` keeps its zero
value. -/
theorem c4_coercion_errors_recoverable_witness :
    decodeKV "C" demoT aliceBobText [] =
      ([⟨"C", "Age", 2, coerceMsg "not-a-number"⟩], none, [aliceRec, bobRec]) ∧
    ([⟨"C", "Age", 2, coerceMsg "not-a-number"⟩] : List RecordError) =
      preFatalErrs "C" demoT 1 (frameKV aliceBobText) ∧
    ([aliceRec, bobRec] : List Record).length = (frameKV aliceBobText).length ∧
    ∃ rec, ([aliceRec, bobRec] : List Record)[1]? = some rec ∧
      lookupVal rec "Age" = lookupVal (newRecord demoT) "Age" := by
  have h := c4_coercion_errors_recoverable "C" demoT aliceBobText [] _ _
    (by decide :
      decodeKV "C" demoT aliceBobText [] =
        ([⟨"C", "Age", 2, coerceMsg "not-a-number"⟩], none, [aliceRec, bobRec]))
  exact ⟨by decide, h.1, h.2.1,
    h.2.2 1 [("Name", "Bob"), ("Age", "not-a-number")] "Age" (by decide) (by decide)⟩

/-- C10: when the key/value decode hits a fatal mapping error, the caller's
destination slice comes back exactly as passed in, and the recoverable
errors collected before the fatal pair are still returned alongside the
fatal error. -/
theorem c10_fatal_preserves_destination :
    ∀ (cls : String) (typ : StructType) (text : String) (out0 : List Record)
      (e : SetError) (errs : List RecordError) (out1 : List Record),
      decodeKV cls typ text out0 = (errs, some e, out1) →
      out1 = out0 ∧ errs = preFatalErrs cls typ 1 (frameKV text) := by
  intro cls typ text out0 e errs out1 h
  rw [decodeKV_eq_spec] at h
  simp only [decodeKVSpec] at h
  cases hf : (runRows cls typ (frameKV text) 1 [] []).fatal with
  | none => rw [hf] at h; simp at h
  | some e0 =>
    rw [hf] at h
    simp only [Prod.mk.injEq] at h
    obtain ⟨h1, -, h3⟩ := h
    refine ⟨h3.symm, ?_⟩
    rw [← h1, runRows_errs cls typ (frameKV text) 1 [] []]
    simp

/-- C10 witness: a recoverable `Age` error precedes the fatal unknown field
`Nope`; the pre-populated destination is returned untouched together with
that error. -/
theorem c10_fatal_preserves_destination_witness :
    ([aliceRec] : List Record) = [aliceRec] ∧
    ([⟨"C", "Age", 1, coerceMsg "x"⟩] : List RecordError) =
      preFatalErrs "C" demoT 1 (frameKV mixedText) :=
  c10_fatal_preserves_destination "C" demoT mixedText [aliceRec]
    (.fieldError "Nope") [⟨"C", "Age", 1, coerceMsg "x"⟩] [aliceRec] (by decide)

/-- C5: for every non-empty filter clause, both builders emit `WHERE`
followed by the space-split clause tokens, prepending a `"("` token exactly
when the first token does not start with `(` and appending a `")"` token
exactly when the last token does not end with `)` — so an already
parenthesized clause is never double-wrapped and an unparenthesized one is
wrapped exactly once. (The first space-split token starts with `(` iff the
first whitespace-split token does, and likewise for the last, since both
ways the boundary tokens share the trimmed clause's first and last
characters.) -/
theorem c5_where_clause_wrapping :
    ∀ (cls : String) (columns : List String) (typ : StructType) (w : String),
      w ≠ "" →
      queryWithTimeoutArgs cls columns w typ =
        ["PATH", cls, "WHERE"] ++
          (if startsLParen (whereParts w).head! then [] else ["("]) ++
          whereParts w ++
          (if endsRParen (whereParts w).getLast! then [] else [")"]) ++
          ["GET", if columns.isEmpty then colString typ else joinComma columns,
            "/format:rawxml", "/VALUE"] ∧
      csvQueryArgs cls columns w =
        ["PATH", cls, "WHERE"] ++
          (if startsLParen (whereParts w).head! then [] else ["("]) ++
          whereParts w ++
          (if endsRParen (whereParts w).getLast! then [] else [")"]) ++
          (["GET"] ++ (if columns.isEmpty then [] else [joinComma columns]) ++
            ["/format:csv"]) := by
  intro cls columns typ w hw
  constructor
  · simp only [queryWithTimeoutArgs, buildWhere, if_neg hw]
    by_cases h1 : startsLParen (whereParts w).head! <;>
      by_cases h2 : endsRParen (whereParts w).getLast! <;>
        by_cases hc : columns.isEmpty <;>
          simp [h1, h2, hc]
  · simp only [csvQueryArgs, buildWhere, if_neg hw]
    by_cases h1 : startsLParen (whereParts w).head! <;>
      by_cases h2 : endsRParen (whereParts w).getLast! <;>
        by_cases hc : columns.isEmpty <;>
          simp [h1, h2, hc]

/-- C5 witness: an already parenthesized clause is not rewrapped; the
generated key/value-pipeline argument list at a concrete clause. -/
theorem c5_where_clause_wrapping_witness :
    (("(Status = 3)" : String) ≠ "") ∧
    queryWithTimeoutArgs "W" [] "(Status = 3)" demoT =
      ["PATH", "W", "WHERE", "(Status", "=", "3)", "GET", "Name,Age",
        "/format:rawxml", "/VALUE"] := by
  refine ⟨by decide, ?_⟩
  have h := (c5_where_clause_wrapping "W" [] demoT "(Status = 3)" (by decide)).1
  rw [h]
  decide

/-- C6 counterexample: the claim says quote characters away from the line
ends are preserved. The source removes every quote: on the line
`Node,a"b` (interior quote only) the code yields `Node,ab`, while the
claim's strip-outer-quotes preprocessing yields the line unchanged. -/
theorem c6_quote_stripping_counterexample :
    csvPreprocess "Node,a\"b" = "Node,ab\n" ∧
    csvPreprocessClaim "Node,a\"b" = "Node,a\"b\n" ∧
    ("Node,ab\n" : String) ≠ "Node,a\"b\n" := by
  refine ⟨?_, ?_, ?_⟩ <;> decide

/-- C6 amended: in the delimited framing, every quote character anywhere in
a line is removed (none survives preprocessing) and blank lines are
discarded; the header `Name,Age` followed by `"Carol","41"` still decodes
to the single record with `Name = "Carol"` and `Age = 41`. -/
theorem c6_quote_stripping_amended :
    (∀ t : String, (csvPreprocess t).data.filter (fun c => c = '"') = []) ∧
    decodeCSV demoT "Name,Age\n\"Carol\",\"41\"" = .ok [carolRec] := by
  exact ⟨csvPreprocess_no_quote, by rfl⟩

/-- C7: ending the input with an explicit blank-line terminator changes
neither the framed rows nor the decode result, i.e. a trailing unterminated
key/value block is emitted exactly as if it had been terminated, so the
decoded count includes it. -/
theorem c7_trailing_block_emitted :
    ∀ (cls : String) (typ : StructType) (text : String) (out0 : List Record),
      decodeKV cls typ (text ++ "\n\n") out0 = decodeKV cls typ text out0 ∧
      frameKV (text ++ "\n\n") = frameKV text := by
  intro cls typ text out0
  have hnl : ("\n\n" : String).data = ['\n', '\n'] := rfl
  have hdata : (text ++ "\n\n").data = text.data ++ ['\n', '\n'] := by
    rw [String.data_append, hnl]
  obtain ⟨p, hp, heq⟩ := scanLinesAux_two_nl text.data []
  have hscan : scanLines (text ++ "\n\n") = scanLines text ++ p := by
    simp only [scanLines, hdata]
    exact heq
  constructor
  · simp only [decodeKV, hscan, List.foldl_append]
    rcases hp with hp | hp <;> subst hp
    · simp only [List.foldl_cons, List.foldl_nil]
      exact kvFinish_blank cls typ _ out0
    · simp only [List.foldl_cons, List.foldl_nil]
      rw [processLine_blank_twice]
      exact kvFinish_blank cls typ _ out0
  · simp only [frameKV, hscan, List.foldl_append]
    rcases hp with hp | hp <;> subst hp
    · simp only [List.foldl_cons, List.foldl_nil]
      exact frameFinish_blank _
    · simp only [List.foldl_cons, List.foldl_nil]
      rw [frameLine_blank_twice]
      exact frameFinish_blank _

/-- C8: in the delimited framing, removing a row whose field count differs
from the header's does not change the decode at all (the row is skipped:
the count drops by one relative to the input rows and every later
well-formed row still decodes), and when the decode aborts with an error,
the cause is a cell-decode failure of some row with the correct field
count, never a row-shape mismatch. -/
theorem c8_malformed_row_skipped :
    ∀ (typ : StructType) (hdr : List String) (rs : List (List String)),
      (∀ (i : Nat) (bad : List String), rs[i]? = some bad →
        (bad.length == hdr.length) = false →
        decodeCSVRows typ hdr (rs.eraseIdx i) = decodeCSVRows typ hdr rs) ∧
      (∀ e, decodeCSVRows typ hdr rs = .error e →
        ∃ r, r ∈ rs ∧ (r.length == hdr.length) = true ∧
          decodeCSVRow typ hdr r = .error e) := by
  intro typ hdr rs
  constructor
  · intro i bad hi hlen
    rw [decodeCSVRows_eq_mapExcept, decodeCSVRows_eq_mapExcept,
      filter_eraseIdx _ rs i bad hi hlen]
  · intro e h
    rw [decodeCSVRows_eq_mapExcept] at h
    obtain ⟨r, hr, hfr⟩ := mapExcept_error _ _ e h
    have hm := List.mem_filter.mp hr
    exact ⟨r, hm.1, hm.2, hfr⟩

/-- C8 witness: with header width 2, the malformed middle row `["bad"]` is
skipped — erasing it leaves the decode unchanged — and the two well-formed
rows around it decode in order. -/
theorem c8_malformed_row_skipped_witness :
    decodeCSVRows demoT ["Name", "Age"]
        ([["Carol", "41"], ["bad"], ["Dave", "7"]].eraseIdx 1) =
      decodeCSVRows demoT ["Name", "Age"] [["Carol", "41"], ["bad"], ["Dave", "7"]] ∧
    decodeCSVRows demoT ["Name", "Age"] [["Carol", "41"], ["bad"], ["Dave", "7"]] =
      .ok [carolRec, daveRec] := by
  refine ⟨?_, by rfl⟩
  exact (c8_malformed_row_skipped demoT ["Name", "Age"]
    [["Carol", "41"], ["bad"], ["Dave", "7"]]).1 1 ["bad"] rfl rfl

/-- C9 counterexample: the claim says a block consisting only of
separator-less lines emits no row. On the input `junk` the decode emits
one (all-zero) record, not zero. -/
theorem c9_junk_line_counterexample :
    (decodeKV "C" demoT "junk" []).2.2 = [newRecord demoT] ∧
    [newRecord demoT] ≠ ([] : List Record) := by
  refine ⟨?_, ?_⟩ <;> decide

/-- C9 amended: a non-blank line without a `name=value` separator, or with
an empty trimmed value, assigns no field and produces no error — but it
does mark the row as started, so a block consisting only of such lines
emits exactly one record, with every field at its zero value. -/
theorem c9_junk_lines_amended :
    ∀ (cls : String) (typ : StructType) (text : String),
      scanLines text ≠ [] →
      (∀ l, l ∈ scanLines text → classifyLine l = .junk) →
      decodeKV cls typ text [] = ([], none, [newRecord typ]) := by
  intro cls typ text hne hall
  simp only [decodeKV]
  rw [show initKV typ = ⟨[], newRecord typ, false, 1, [], none⟩ from rfl]
  rw [junk_fold cls typ (scanLines text) false hall hne]
  rfl

/-- C9 amended witness: the single junk line `junk` frames and decodes to
one zero-valued record with no errors. -/
theorem c9_junk_lines_amended_witness :
    (scanLines "junk" ≠ []) ∧
    (∀ l, l ∈ scanLines "junk" → classifyLine l = .junk) ∧
    decodeKV "C" demoT "junk" [] = ([], none, [newRecord demoT]) := by
  refine ⟨by decide, by decide, ?_⟩
  exact c9_junk_lines_amended "C" demoT "junk" (by decide) (by decide)

end Wmic
